import Mathlib

/-!
Shallow embedding of the `argmin-exploring` repository's core: the Rosenbrock
objective in its three parameter-container representations (`Rosenbrock` in
`src/lib.rs`, `RosenbrockVec` in `src/rosenbrock_vec.rs`, `RosenbrockND` in
`src/rosenbrock_ndarray.rs`), the negated "maximization" variant from
`src/bin/01-rosenbrock.rs`, and the stochastic perturbation operator
(`Anneal for RosenbrockND`).

Machine `f64` values are modelled as rationals; the claims under study only
involve exact arithmetic on representable values.  A Rust call that returns
`Ok(v)` is modelled as `RustOutcome.ok v`, a typed `Err(e)` as
`RustOutcome.error e`, and a panic (index out of bounds, failed assertion,
empty `Uniform` range) as `RustOutcome.crash`.
-/

namespace ArgminExploring

/-- Typed error values surfaced to the caller through `Result`.  `shapeError`
models `ndarray::ShapeError` (converted into `argmin::core::Error` by `?`);
`invalidInput` models the `InvalidInput` failure the specification talks
about (no code path in the repository produces it). -/
inductive ArgminError where
  | shapeError : ArgminError
  | invalidInput : ArgminError
deriving DecidableEq, Repr

/-- Outcome of calling a Rust function: a successful value, a typed error
returned to the caller, or a panic (crash). -/
inductive RustOutcome (α : Type) where
  | ok : α → RustOutcome α
  | error : ArgminError → RustOutcome α
  | crash : RustOutcome α
deriving DecidableEq, Repr

/-- Modelled from the spec: `rosenbrock_2d` of the external
`argmin_testfunctions` crate, the surface `f(x, y) = (a-x)^2 + b(y-x^2)^2`
(also stated in the repository's own doc comments).  The crate indexes
`param[0]` and `param[1]` directly, so a parameter shorter than 2 panics and
components beyond the second are ignored. -/
def rosenbrock_2d (param : List ℚ) (a b : ℚ) : Option ℚ :=
  match param with
  | x :: y :: _ => some ((a - x) ^ 2 + b * (y - x ^ 2) ^ 2)
  | _ => none

/-- Modelled from the spec: `rosenbrock_2d_derivative` of the external
`argmin_testfunctions` crate, the exact analytic gradient of the surface.
Same indexing behaviour as `rosenbrock_2d`. -/
def rosenbrock_2d_derivative (param : List ℚ) (a b : ℚ) : Option (List ℚ) :=
  match param with
  | x :: y :: _ => some [-2 * a + 4 * b * x ^ 3 - 4 * b * x * y + 2 * x, b * (2 * y - 2 * x ^ 2)]
  | _ => none

/-- Modelled from the spec: `rosenbrock_2d_hessian` of the external
`argmin_testfunctions` crate, the exact analytic second derivatives as a flat
row-major buffer of length 4.  Same indexing behaviour as `rosenbrock_2d`. -/
def rosenbrock_2d_hessian (param : List ℚ) (a b : ℚ) : Option (List ℚ) :=
  match param with
  | x :: y :: _ => some [12 * b * x ^ 2 - 4 * b * y + 2, -4 * b * x, -4 * b * x, 2 * b]
  | _ => none

/-- The `Rosenbrock` objective of `src/lib.rs`: two shape scalars. -/
structure Rosenbrock where
  a : ℚ
  b : ℚ
deriving DecidableEq, Repr

/-- `Rosenbrock::new`. -/
def Rosenbrock.new (a b : ℚ) : Rosenbrock := ⟨a, b⟩

/-- `Default for Rosenbrock`: `Self::new(1.0, 100.0)`. -/
def Rosenbrock.defaultInstance : Rosenbrock := Rosenbrock.new 1 100

/-- `CostFunction for Rosenbrock`: `Ok(rosenbrock_2d(param, self.a, self.b))`. -/
def Rosenbrock.cost (self : Rosenbrock) (param : List ℚ) : RustOutcome ℚ :=
  match rosenbrock_2d param self.a self.b with
  | some v => .ok v
  | none => .crash

/-- `Gradient for Rosenbrock`: `Ok(rosenbrock_2d_derivative(param, self.a, self.b))`. -/
def Rosenbrock.gradient (self : Rosenbrock) (param : List ℚ) : RustOutcome (List ℚ) :=
  match rosenbrock_2d_derivative param self.a self.b with
  | some g => .ok g
  | none => .crash

/-- `Hessian for Rosenbrock`: builds `vec![vec![t[0], t[1]], vec![t[2], t[3]]]`
from the flat buffer `t`. -/
def Rosenbrock.hessian (self : Rosenbrock) (param : List ℚ) : RustOutcome (List (List ℚ)) :=
  match rosenbrock_2d_hessian param self.a self.b with
  | some (t0 :: t1 :: t2 :: t3 :: _) => .ok [[t0, t1], [t2, t3]]
  | some _ => .crash
  | none => .crash

/-- The `RosenbrockVec` objective of `src/rosenbrock_vec.rs`; its three
operations are textually identical to `Rosenbrock`'s (modulo a redundant
`to_vec` copy). -/
structure RosenbrockVec where
  a : ℚ
  b : ℚ
deriving DecidableEq, Repr

/-- `RosenbrockVec::new`. -/
def RosenbrockVec.new (a b : ℚ) : RosenbrockVec := ⟨a, b⟩

/-- `CostFunction for RosenbrockVec`. -/
def RosenbrockVec.cost (self : RosenbrockVec) (param : List ℚ) : RustOutcome ℚ :=
  match rosenbrock_2d param self.a self.b with
  | some v => .ok v
  | none => .crash

/-- `Gradient for RosenbrockVec`. -/
def RosenbrockVec.gradient (self : RosenbrockVec) (param : List ℚ) : RustOutcome (List ℚ) :=
  match rosenbrock_2d_derivative param self.a self.b with
  | some g => .ok g
  | none => .crash

/-- `Hessian for RosenbrockVec`. -/
def RosenbrockVec.hessian (self : RosenbrockVec) (param : List ℚ) : RustOutcome (List (List ℚ)) :=
  match rosenbrock_2d_hessian param self.a self.b with
  | some (t0 :: t1 :: t2 :: t3 :: _) => .ok [[t0, t1], [t2, t3]]
  | some _ => .crash
  | none => .crash

/-- The local `Rosenbrock` struct of `src/bin/01-rosenbrock.rs` (renamed here
to avoid clashing with the library type): the "maximization" variant whose
`cost` negates `rosenbrock_2d` while `gradient` and `hessian` call the base
derivative functions unchanged. -/
structure RosenbrockMax where
  a : ℚ
  b : ℚ
deriving DecidableEq, Repr

/-- `CostFunction for` the bin-local struct: `Ok(-rosenbrock_2d(param, self.a, self.b))`. -/
def RosenbrockMax.cost (self : RosenbrockMax) (param : List ℚ) : RustOutcome ℚ :=
  match rosenbrock_2d param self.a self.b with
  | some v => .ok (-v)
  | none => .crash

/-- `Gradient for` the bin-local struct: the derivative is returned without
negation. -/
def RosenbrockMax.gradient (self : RosenbrockMax) (param : List ℚ) : RustOutcome (List ℚ) :=
  match rosenbrock_2d_derivative param self.a self.b with
  | some g => .ok g
  | none => .crash

/-- `Hessian for` the bin-local struct: the second derivatives are returned
without negation. -/
def RosenbrockMax.hessian (self : RosenbrockMax) (param : List ℚ) : RustOutcome (List (List ℚ)) :=
  match rosenbrock_2d_hessian param self.a self.b with
  | some (t0 :: t1 :: t2 :: t3 :: _) => .ok [[t0, t1], [t2, t3]]
  | some _ => .crash
  | none => .crash

/-- Splits a flat row-major buffer into `r` rows of `c` entries each. -/
def chunkRows : ℕ → ℕ → List ℚ → List (List ℚ)
  | 0, _, _ => []
  | r + 1, c, v => v.take c :: chunkRows r c (v.drop c)

/-- Modelled from the spec: `ndarray::Array2::from_shape_vec((r, c), v)` of the
external `ndarray` crate.  Building a matrix from a flat buffer fails with a
`ShapeError` exactly when the buffer length differs from `r * c`; on success
the buffer is used whole, in row-major order. -/
def Array2.from_shape_vec (r c : ℕ) (v : List ℚ) : Except ArgminError (List (List ℚ)) :=
  if v.length = r * c then .ok (chunkRows r c v) else .error .shapeError

/-- Elementwise negation of a gradient vector. -/
def negVec (v : List ℚ) : List ℚ := v.map (fun x => -x)

/-- Elementwise negation of a matrix. -/
def negMat (m : List (List ℚ)) : List (List ℚ) := m.map negVec

/-- Maps a function over the success value of an outcome. -/
def RustOutcome.omap {α β : Type} (f : α → β) : RustOutcome α → RustOutcome β
  | .ok v => .ok (f v)
  | .error e => .error e
  | .crash => .crash

/-- Modelled from the spec: the `Xoshiro256PlusPlus` generator of the external
`rand_xoshiro` crate, abstracted as an arbitrary stream of raw draws plus a
position counter.  Each perturbation step consumes one stream element: a raw
index draw and a raw value draw. -/
structure Rng where
  stream : ℕ → ℕ × ℚ
  count : ℕ

/-- Reads the next raw draw pair and advances the generator state. -/
def Rng.next (r : Rng) : (ℕ × ℚ) × Rng :=
  (r.stream r.count, ⟨r.stream, r.count + 1⟩)

/-- Modelled from the spec: sampling `Uniform::new_inclusive(-0.1, 0.1)` of
the external `rand` crate.  The sampler maps the raw generator draw to a
value guaranteed to lie in `[-0.1, 0.1]`. -/
def sampleVal (raw : ℚ) : ℚ :=
  if raw < -(1 / 10) then -(1 / 10) else if (1 / 10 : ℚ) < raw then 1 / 10 else raw

/-- The `RosenbrockND` objective of `src/rosenbrock_ndarray.rs`: shape scalars,
elementwise bounds, and the owned random generator (`Arc<Mutex<_>>` interior
mutability is modelled by threading the generator state through `anneal`). -/
structure RosenbrockND where
  a : ℚ
  b : ℚ
  lower_bound : List ℚ
  upper_bound : List ℚ
  rng : Rng

/-- `RosenbrockND::new`: stores the four fields and a generator freshly seeded
from entropy (the entropy seed is the explicit `rng` argument here).  The
constructor performs no validation of any kind. -/
def RosenbrockND.new (a b : ℚ) (lower_bound upper_bound : List ℚ) (rng : Rng) : RosenbrockND :=
  ⟨a, b, lower_bound, upper_bound, rng⟩

/-- `CostFunction for RosenbrockND` (the `to_vec` conversion is the identity
in this model). -/
def RosenbrockND.cost (self : RosenbrockND) (param : List ℚ) : RustOutcome ℚ :=
  match rosenbrock_2d param self.a self.b with
  | some v => .ok v
  | none => .crash

/-- `Gradient for RosenbrockND`. -/
def RosenbrockND.gradient (self : RosenbrockND) (param : List ℚ) : RustOutcome (List ℚ) :=
  match rosenbrock_2d_derivative param self.a self.b with
  | some g => .ok g
  | none => .crash

/-- `Hessian for RosenbrockND`: `Ok(Array2::from_shape_vec((2, 2), h)?)`. -/
def RosenbrockND.hessian (self : RosenbrockND) (param : List ℚ) : RustOutcome (List (List ℚ)) :=
  match rosenbrock_2d_hessian param self.a self.b with
  | some h =>
    match Array2.from_shape_vec 2 2 h with
    | .ok m => .ok m
    | .error e => .error e
  | none => .crash

/-- `f64::clamp(self, min, max)`: asserts `min <= max` (panic otherwise),
then projects onto the interval. -/
def clampRust (x lo hi : ℚ) : Option ℚ :=
  if lo ≤ hi then some (if x < lo then lo else if hi < x then hi else x) else none

/-- One iteration of the `anneal` loop body, after the two draws: index the
working copy (panics when `idx` is out of range of the parameter or of either
bounds array), add the delta, clamp onto the bounds. -/
def annealStep (o : RosenbrockND) (p : List ℚ) (idx : ℕ) (val : ℚ) : Option (List ℚ) :=
  if idx < p.length ∧ idx < o.lower_bound.length ∧ idx < o.upper_bound.length then
    Option.map (fun c => p.set idx c)
      (clampRust (p.getD idx 0 + val) (o.lower_bound.getD idx 0) (o.upper_bound.getD idx 0))
  else none

/-- The `for` loop of `anneal`: `k` remaining iterations, each drawing the
raw pair, reducing the index draw modulo the (fixed) original parameter
length `n` (the `Uniform::from(0..n)` distribution), sampling the delta, and
running the step.  A panic aborts the loop. -/
def annealLoop (o : RosenbrockND) (n : ℕ) : ℕ → List ℚ → Rng → Option (List ℚ) × Rng
  | 0, p, r => (some p, r)
  | k + 1, p, r =>
    let d := r.next
    match annealStep o p (d.1.1 % n) (sampleVal d.1.2) with
    | none => (none, d.2)
    | some p1 => annealLoop o n k p1 d.2

/-- The value of `u64::MAX`. -/
def u64Max : ℕ := 18446744073709551615

/-- `temp.floor() as u64`: Rust float-to-integer casts saturate — negative
values go to 0 (here via `Int.toNat`) and values at or above 2^64 go to
`u64::MAX` (here via `min`). -/
def floorAsU64 (temp : ℚ) : ℕ := min (Int.toNat ⌊temp⌋) u64Max

/-- The loop iteration count of `anneal`: `temp.floor() as u64 + 1`.  The
`+ 1` is a bounded `u64` addition; the crate is built with cargo's default
dev profile, where integer overflow panics, so a saturated cast makes the
addition fail (`none`) rather than produce a count.  (A release build would
instead wrap the count to 0; every theorem below that assumes the
no-overflow hypothesis holds for either profile, since the two profiles
agree whenever the addition does not overflow.) -/
def loopBound (temp : ℚ) : Option ℕ :=
  if floorAsU64 temp + 1 ≤ u64Max then some (floorAsU64 temp + 1) else none

/-- `Anneal for RosenbrockND`: clones the parameter, locks the generator,
builds `Uniform::from(0..param.len())` (which panics on an empty parameter),
evaluates the loop bound `temp.floor() as u64 + 1` (which panics on `u64`
overflow), then runs the perturbation loop.  Returns the perturbed parameter
and the objective as it stands after the call (only the generator state may
have advanced). -/
def RosenbrockND.anneal (o : RosenbrockND) (param : List ℚ) (temp : ℚ) :
    RustOutcome (List ℚ) × RosenbrockND :=
  if param.length = 0 then (.crash, o)
  else
    match loopBound temp with
    | none => (.crash, o)
    | some steps =>
      match annealLoop o param.length steps param o.rng with
      | (some out, r1) => (.ok out, { o with rng := r1 })
      | (none, r1) => (.crash, { o with rng := r1 })

/-- Written from the specification's words, for comparison with the source
translation: clamp the component onto `[lower[idx], upper[idx]]`. -/
def clampTotal (x lo hi : ℚ) : ℚ := max lo (min x hi)

/-- Written from the specification's words: one perturbation step — add the
delta to the component at the drawn index and clamp it onto its bounds. -/
def annealSpecStep (lower upper p : List ℚ) (idx : ℕ) (delta : ℚ) : List ℚ :=
  p.set idx (clampTotal (p.getD idx 0 + delta) (lower.getD idx 0) (upper.getD idx 0))

/-- Written from the specification's words: `floor(temp) + 1` sequential
perturbation steps on an accumulating working copy, each drawing an index in
`[0, n)` and a delta in `[-0.1, 0.1]` from the generator. -/
def annealSpecLoop (lower upper : List ℚ) (n : ℕ) : ℕ → List ℚ → Rng → List ℚ × Rng
  | 0, p, r => (p, r)
  | k + 1, p, r =>
    let d := r.next
    annealSpecLoop lower upper n k (annealSpecStep lower upper p (d.1.1 % n) (sampleVal d.1.2)) d.2

/-- Feasibility of a parameter for a bounds-aware objective: the bounds cover
every component and every component lies within its bounds. -/
def Feasible (o : RosenbrockND) (p : List ℚ) : Prop :=
  o.lower_bound.length = p.length ∧ o.upper_bound.length = p.length ∧
    ∀ i < p.length, o.lower_bound.getD i 0 ≤ p.getD i 0 ∧ p.getD i 0 ≤ o.upper_bound.getD i 0

instance (o : RosenbrockND) (p : List ℚ) : Decidable (Feasible o p) := by
  unfold Feasible
  infer_instance

/-- A deterministic generator used for concrete evaluations: every raw draw
is `(0, 0)`. -/
def zeroRng : Rng := ⟨fun _ => (0, 0), 0⟩

/-- A deterministic generator whose every raw index draw is `1`. -/
def oneRng : Rng := ⟨fun _ => (1, 0), 0⟩

/-! ### Helper lemmas about clamping, `List.getD` and the perturbation loop -/

lemma getD_set_self (l : List ℚ) (i : ℕ) (a d : ℚ) (h : i < l.length) :
    (l.set i a).getD i d = a := by
  rw [List.getD_eq_getElem _ _ (by simpa using h)]
  exact List.getElem_set_self _

lemma getD_set_ne (l : List ℚ) (i j : ℕ) (a d : ℚ) (hne : i ≠ j) :
    (l.set i a).getD j d = l.getD j d := by
  rcases lt_or_le j l.length with h | h
  · rw [List.getD_eq_getElem _ _ (by simpa using h), List.getD_eq_getElem _ _ h,
      List.getElem_set_ne hne]
  · rw [List.getD_eq_default _ _ (by simpa using h), List.getD_eq_default _ _ h]

lemma clampRust_eq (x lo hi : ℚ) (h : lo ≤ hi) :
    clampRust x lo hi = some (clampTotal x lo hi) := by
  unfold clampRust clampTotal
  rw [if_pos h]
  congr 1
  rcases lt_or_le x lo with h1 | h1
  · rw [if_pos h1, min_eq_left (le_trans h1.le h), max_eq_left h1.le]
  · rw [if_neg (not_lt.mpr h1)]
    rcases lt_or_le hi x with h2 | h2
    · rw [if_pos h2, min_eq_right h2.le, max_eq_right h]
    · rw [if_neg (not_lt.mpr h2), min_eq_left h2, max_eq_right h1]

lemma clampTotal_mem (x lo hi : ℚ) (h : lo ≤ hi) :
    lo ≤ clampTotal x lo hi ∧ clampTotal x lo hi ≤ hi :=
  ⟨le_max_left _ _, max_le h (min_le_right _ _)⟩

lemma annealStep_eq_spec (o : RosenbrockND) (p : List ℚ) (idx : ℕ) (val : ℚ)
    (hidx : idx < p.length) (hlo : o.lower_bound.length = p.length)
    (hup : o.upper_bound.length = p.length)
    (hb : o.lower_bound.getD idx 0 ≤ o.upper_bound.getD idx 0) :
    annealStep o p idx val = some (annealSpecStep o.lower_bound o.upper_bound p idx val) := by
  unfold annealStep annealSpecStep
  rw [if_pos ⟨hidx, by omega, by omega⟩, clampRust_eq _ _ _ hb]
  rfl

lemma feasible_specStep (o : RosenbrockND) (p : List ℚ) (idx : ℕ) (val : ℚ)
    (hf : Feasible o p) (hidx : idx < p.length) :
    Feasible o (annealSpecStep o.lower_bound o.upper_bound p idx val) ∧
      (annealSpecStep o.lower_bound o.upper_bound p idx val).length = p.length := by
  obtain ⟨hlo, hup, hcomp⟩ := hf
  have hlen : (annealSpecStep o.lower_bound o.upper_bound p idx val).length = p.length := by
    simp [annealSpecStep]
  have hb : o.lower_bound.getD idx 0 ≤ o.upper_bound.getD idx 0 :=
    le_trans (hcomp idx hidx).1 (hcomp idx hidx).2
  refine ⟨⟨by omega, by omega, ?_⟩, hlen⟩
  intro i hi
  rw [hlen] at hi
  unfold annealSpecStep
  rcases eq_or_ne idx i with hcase | hcase
  · subst hcase
    rw [getD_set_self _ _ _ _ hidx]
    exact clampTotal_mem _ _ _ hb
  · rw [getD_set_ne _ _ _ _ _ hcase]
    exact hcomp i hi

lemma annealLoop_eq_spec (o : RosenbrockND) (n : ℕ) (hn : 0 < n) (k : ℕ) :
    ∀ (p : List ℚ) (r : Rng), p.length = n → Feasible o p →
      annealLoop o n k p r =
        (some (annealSpecLoop o.lower_bound o.upper_bound n k p r).1,
          (annealSpecLoop o.lower_bound o.upper_bound n k p r).2) ∧
      (annealSpecLoop o.lower_bound o.upper_bound n k p r).1.length = n ∧
      Feasible o (annealSpecLoop o.lower_bound o.upper_bound n k p r).1 ∧
      (annealSpecLoop o.lower_bound o.upper_bound n k p r).2 = ⟨r.stream, r.count + k⟩ := by
  induction k with
  | zero =>
    intro p r hlen hf
    exact ⟨by simp [annealLoop, annealSpecLoop], by simp [annealSpecLoop, hlen],
      by simpa [annealSpecLoop] using hf, by simp [annealSpecLoop]⟩
  | succ k ih =>
    intro p r hlen hf
    have hidx : (r.stream r.count).1 % n < p.length := by
      rw [hlen]; exact Nat.mod_lt _ hn
    have hb : o.lower_bound.getD ((r.stream r.count).1 % n) 0 ≤
        o.upper_bound.getD ((r.stream r.count).1 % n) 0 :=
      le_trans (hf.2.2 _ hidx).1 (hf.2.2 _ hidx).2
    have hstep := annealStep_eq_spec o p ((r.stream r.count).1 % n)
      (sampleVal (r.stream r.count).2) hidx hf.1 hf.2.1 hb
    have hpres := feasible_specStep o p ((r.stream r.count).1 % n)
      (sampleVal (r.stream r.count).2) hf hidx
    have ihx := ih (annealSpecStep o.lower_bound o.upper_bound p
        ((r.stream r.count).1 % n) (sampleVal (r.stream r.count).2))
      ⟨r.stream, r.count + 1⟩ (hpres.2.trans hlen) hpres.1
    refine ⟨?_, ?_, ?_, ?_⟩
    · show annealLoop o n (k + 1) p r = _
      rw [annealLoop, annealSpecLoop]
      simp only [Rng.next, hstep]
      exact ihx.1
    · rw [annealSpecLoop]
      simp only [Rng.next]
      exact ihx.2.1
    · rw [annealSpecLoop]
      simp only [Rng.next]
      exact ihx.2.2.1
    · rw [annealSpecLoop]
      simp only [Rng.next]
      rw [ihx.2.2.2]
      simp only [Rng.mk.injEq, true_and]
      omega

lemma annealLoop_stream (o : RosenbrockND) (n : ℕ) (k : ℕ) :
    ∀ (p : List ℚ) (r : Rng), (annealLoop o n k p r).2.stream = r.stream := by
  induction k with
  | zero => intro p r; rfl
  | succ k ih =>
    intro p r
    rw [annealLoop]
    rcases hres : annealStep o p (r.next.1.1 % n) (sampleVal r.next.1.2) with _ | p1
    · rfl
    · exact ih p1 r.next.2

lemma annealLoop_count_of_some (o : RosenbrockND) (n : ℕ) (k : ℕ) :
    ∀ (p : List ℚ) (r : Rng) (out : List ℚ), (annealLoop o n k p r).1 = some out →
      (annealLoop o n k p r).2.count = r.count + k := by
  induction k with
  | zero => intro p r out _; rfl
  | succ k ih =>
    intro p r out hsome
    rw [annealLoop] at hsome ⊢
    rcases hres : annealStep o p (r.next.1.1 % n) (sampleVal r.next.1.2) with _ | p1
    · rw [hres] at hsome
      exact absurd hsome (by simp)
    · rw [hres] at hsome
      have h2 := ih p1 r.next.2 out hsome
      show (annealLoop o n k p1 r.next.2).2.count = r.count + (k + 1)
      rw [h2]
      show r.count + 1 + k = r.count + (k + 1)
      omega

lemma loopBound_of_lt (temp : ℚ) (hbound : Int.toNat ⌊temp⌋ < u64Max) :
    loopBound temp = some (Int.toNat ⌊temp⌋ + 1) := by
  unfold loopBound floorAsU64
  rw [min_eq_left (le_of_lt hbound),
    if_pos (show Int.toNat ⌊temp⌋ + 1 ≤ u64Max from hbound)]

lemma chunkRows_flatten (c : ℕ) : ∀ (r : ℕ) (v : List ℚ), v.length = r * c →
    (chunkRows r c v).flatten = v := by
  intro r
  induction r with
  | zero =>
    intro v hv
    have hnil : v = [] := List.length_eq_zero.mp (by simpa using hv)
    subst hnil
    rfl
  | succ r ih =>
    intro v hv
    rw [chunkRows, List.flatten_cons,
      ih (v.drop c) (by rw [List.length_drop, hv, Nat.succ_mul]; omega)]
    exact List.take_append_drop c v

/-! ### The claims -/

/-- C1: for every length-2 parameter, the cost operation of each objective
representation returns the surface value, and with the default shape
parameters the two concrete scenario values hold. -/
theorem cost_formula (a b x y : ℚ) (lo up : List ℚ) (r : Rng) :
    (Rosenbrock.new a b).cost [x, y] = .ok ((a - x) ^ 2 + b * (y - x ^ 2) ^ 2) ∧
    (RosenbrockVec.new a b).cost [x, y] = .ok ((a - x) ^ 2 + b * (y - x ^ 2) ^ 2) ∧
    (RosenbrockND.new a b lo up r).cost [x, y] = .ok ((a - x) ^ 2 + b * (y - x ^ 2) ^ 2) ∧
    Rosenbrock.defaultInstance.cost [1, 1] = .ok 0 ∧
    Rosenbrock.defaultInstance.cost [10, 5] = .ok 902581 := by
  refine ⟨rfl, rfl, rfl, ?_, ?_⟩ <;>
    norm_num [Rosenbrock.cost, Rosenbrock.defaultInstance, Rosenbrock.new, rosenbrock_2d]

/-- C4 counterexample: with shape parameters a = 1, b = 100 at the sampled
point (0, 0), the maximization variant's gradient is not the negation of the
base objective's gradient. -/
theorem max_variant_counterexample :
    ¬ (RosenbrockMax.mk 1 100).gradient [0, 0] =
        RustOutcome.omap negVec ((Rosenbrock.new 1 100).gradient [0, 0]) := by
  norm_num [RosenbrockMax.gradient, Rosenbrock.gradient, Rosenbrock.new,
    rosenbrock_2d_derivative, RustOutcome.omap, negVec]

/-- C4 (amended): the maximization variant negates only the cost; its
gradient and Hessian are identical to the base objective's, not negated. -/
theorem max_variant_negation (a b : ℚ) (p : List ℚ) :
    (RosenbrockMax.mk a b).cost p = RustOutcome.omap (fun v => -v) ((Rosenbrock.new a b).cost p) ∧
    (RosenbrockMax.mk a b).gradient p = (Rosenbrock.new a b).gradient p ∧
    (RosenbrockMax.mk a b).hessian p = (Rosenbrock.new a b).hessian p := by
  rcases p with _ | ⟨x, _ | ⟨y, rest⟩⟩ <;> exact ⟨rfl, rfl, rfl⟩

/-- C5 counterexample: with the default objective, the length-3 parameter is
accepted (extra component ignored) and the empty parameter crashes; neither
produces a typed InvalidInput failure. -/
theorem invalid_input_counterexample :
    Rosenbrock.defaultInstance.cost [1, 1, 1] = .ok 0 ∧
    Rosenbrock.defaultInstance.cost [1, 1, 1] ≠ .error .invalidInput ∧
    Rosenbrock.defaultInstance.cost [] = .crash ∧
    Rosenbrock.defaultInstance.cost [] ≠ .error .invalidInput := by
  refine ⟨?_, fun h => RustOutcome.noConfusion h, rfl, fun h => RustOutcome.noConfusion h⟩
  norm_num [Rosenbrock.cost, Rosenbrock.defaultInstance, Rosenbrock.new, rosenbrock_2d]

/-- C5 (amended): the operations perform no dimensionality validation — a
parameter shorter than 2 crashes (index out of bounds), and a parameter of
length at least 2 succeeds using only its first two components; no typed
InvalidInput failure exists on any path. -/
theorem no_dimension_validation (a b : ℚ) (lo up : List ℚ) (r : Rng) (p : List ℚ) :
    (p.length < 2 →
      (Rosenbrock.new a b).cost p = .crash ∧
      (Rosenbrock.new a b).gradient p = .crash ∧
      (Rosenbrock.new a b).hessian p = .crash ∧
      (RosenbrockVec.new a b).cost p = .crash ∧
      (RosenbrockND.new a b lo up r).cost p = .crash) ∧
    (2 ≤ p.length →
      ∃ c g M,
        (Rosenbrock.new a b).cost p = .ok c ∧
        (Rosenbrock.new a b).cost (p.take 2) = .ok c ∧
        (RosenbrockVec.new a b).cost p = .ok c ∧
        (RosenbrockND.new a b lo up r).cost p = .ok c ∧
        (Rosenbrock.new a b).gradient p = .ok g ∧
        (Rosenbrock.new a b).hessian p = .ok M) := by
  rcases p with _ | ⟨x, _ | ⟨y, rest⟩⟩
  · exact ⟨fun _ => ⟨rfl, rfl, rfl, rfl, rfl⟩, fun h => by simp at h⟩
  · exact ⟨fun _ => ⟨rfl, rfl, rfl, rfl, rfl⟩, fun h => by simp at h⟩
  · exact ⟨fun h => by simp only [List.length_cons] at h; omega,
      fun _ => ⟨_, _, _, rfl, rfl, rfl, rfl, rfl, rfl⟩⟩

/-- C5 witness: the amended behaviour evaluated at the concrete parameters
[5] (too short: crash) and [1, 1, 3] (too long: accepted). -/
theorem no_dimension_validation_witness :
    ((Rosenbrock.new 1 100).cost [5] = .crash ∧
      (Rosenbrock.new 1 100).gradient [5] = .crash ∧
      (Rosenbrock.new 1 100).hessian [5] = .crash ∧
      (RosenbrockVec.new 1 100).cost [5] = .crash ∧
      (RosenbrockND.new 1 100 [] [] zeroRng).cost [5] = .crash) ∧
    (∃ c g M,
      (Rosenbrock.new 1 100).cost [1, 1, 3] = .ok c ∧
      (Rosenbrock.new 1 100).cost (([1, 1, 3] : List ℚ).take 2) = .ok c ∧
      (RosenbrockVec.new 1 100).cost [1, 1, 3] = .ok c ∧
      (RosenbrockND.new 1 100 [] [] zeroRng).cost [1, 1, 3] = .ok c ∧
      (Rosenbrock.new 1 100).gradient [1, 1, 3] = .ok g ∧
      (Rosenbrock.new 1 100).hessian [1, 1, 3] = .ok M) :=
  ⟨(no_dimension_validation 1 100 [] [] zeroRng [5]).1 (by decide),
   (no_dimension_validation 1 100 [] [] zeroRng [1, 1, 3]).2 (by decide)⟩

/-- C6: building the matrix-shaped Hessian from a flat buffer fails with a
ShapeError exactly when the buffer length differs from the product of the
target dimensions; on success the whole buffer is used (no truncation), and
the Hessian operation surfaces exactly this outcome. -/
theorem from_shape_vec_shape_error (v : List ℚ) :
    (v.length ≠ 2 * 2 → Array2.from_shape_vec 2 2 v = .error .shapeError) ∧
    (v.length = 2 * 2 → Array2.from_shape_vec 2 2 v = .ok (chunkRows 2 2 v) ∧
      (chunkRows 2 2 v).flatten = v) ∧
    (∀ (o : RosenbrockND) (p : List ℚ) (h : List ℚ),
      rosenbrock_2d_hessian p o.a o.b = some h →
        o.hessian p = match Array2.from_shape_vec 2 2 h with
          | .ok m => .ok m
          | .error e => .error e) := by
  refine ⟨?_, ?_, ?_⟩
  · intro h
    unfold Array2.from_shape_vec
    rw [if_neg h]
  · intro h
    refine ⟨?_, chunkRows_flatten 2 2 v h⟩
    unfold Array2.from_shape_vec
    rw [if_pos h]
  · intro o p h hbuf
    unfold RosenbrockND.hessian
    rw [hbuf]

/-- C6 witness: the boundary evaluated at a length-3 buffer (rejected), a
length-4 buffer (accepted whole), and the concrete Hessian call at (0, 0). -/
theorem from_shape_vec_witness :
    Array2.from_shape_vec 2 2 [1, 2, 3] = .error .shapeError ∧
    (Array2.from_shape_vec 2 2 [1, 2, 3, 4] = .ok (chunkRows 2 2 [1, 2, 3, 4]) ∧
      (chunkRows 2 2 ([1, 2, 3, 4] : List ℚ)).flatten = [1, 2, 3, 4]) ∧
    (RosenbrockND.new 1 100 [] [] zeroRng).hessian [0, 0] =
      match Array2.from_shape_vec 2 2 [2, 0, 0, 200] with
      | .ok m => .ok m
      | .error e => .error e :=
  ⟨(from_shape_vec_shape_error [1, 2, 3]).1 (by decide),
   (from_shape_vec_shape_error [1, 2, 3, 4]).2.1 (by decide),
   (from_shape_vec_shape_error []).2.2 (RosenbrockND.new 1 100 [] [] zeroRng) [0, 0]
     [2, 0, 0, 200] (by norm_num [rosenbrock_2d_hessian, RosenbrockND.new])⟩

/-- C7: at every length-2 parameter the Hessian of the base objective and of
the bounds-aware objective is the same matrix, and that matrix is
symmetric. -/
theorem hessian_symmetric (a b x y : ℚ) (lo up : List ℚ) (r : Rng) :
    ∃ M, (Rosenbrock.new a b).hessian [x, y] = .ok M ∧
      (RosenbrockND.new a b lo up r).hessian [x, y] = .ok M ∧
      ∀ i j : ℕ, (M.getD i []).getD j 0 = (M.getD j []).getD i 0 := by
  refine ⟨[[12 * b * x ^ 2 - 4 * b * y + 2, -4 * b * x], [-4 * b * x, 2 * b]], rfl, rfl, ?_⟩
  intro i j
  rcases i with _ | _ | i <;> rcases j with _ | _ | j <;>
    simp [List.getD_cons_zero, List.getD_cons_succ]

/-- C8: for every length-2 parameter and positive shape parameter b, the
cost is nonnegative and vanishes exactly at the unique minimizer
(a, a squared). -/
theorem cost_nonneg_unique_min (a b x y : ℚ) (hb : 0 < b) :
    ∃ c, (Rosenbrock.new a b).cost [x, y] = .ok c ∧ 0 ≤ c ∧
      (c = 0 ↔ x = a ∧ y = a ^ 2) := by
  refine ⟨(a - x) ^ 2 + b * (y - x ^ 2) ^ 2, rfl, by positivity, ?_, ?_⟩
  · intro h0
    have h1 : (a - x) ^ 2 = 0 := by
      nlinarith [sq_nonneg (a - x), sq_nonneg (y - x ^ 2),
        mul_nonneg hb.le (sq_nonneg (y - x ^ 2))]
    have h2 : (y - x ^ 2) ^ 2 = 0 := by
      nlinarith [sq_nonneg (a - x), sq_nonneg (y - x ^ 2),
        mul_nonneg hb.le (sq_nonneg (y - x ^ 2))]
    have hx : x = a := by
      have := pow_eq_zero_iff (two_ne_zero) |>.mp h1
      linarith
    have hy : y = x ^ 2 := by
      have := pow_eq_zero_iff (two_ne_zero) |>.mp h2
      linarith
    exact ⟨hx, by rw [hy, hx]⟩
  · rintro ⟨hx, hy⟩
    subst hx
    rw [hy]
    ring

/-- C8 witness: the property at the default shape parameters, evaluated at
the minimizer (1, 1). -/
theorem cost_nonneg_unique_min_witness :
    (0 : ℚ) < 100 ∧ ∃ c, (Rosenbrock.new 1 100).cost [1, 1] = .ok c ∧ 0 ≤ c ∧
      (c = 0 ↔ (1 : ℚ) = 1 ∧ (1 : ℚ) = 1 ^ 2) :=
  ⟨by norm_num, cost_nonneg_unique_min 1 100 1 1 (by norm_num)⟩

/-- C2 counterexample: two feasible inputs inside the claim's scope where the
call does not perform floor(temp) + 1 steps.  On the empty (vacuously
feasible) parameter it panics while building the index distribution, before
any draw, where one full step would advance the generator once; and at
temperature 2^64 on a nonempty feasible parameter the loop bound
`temp.floor() as u64 + 1` overflows, so the call crashes after zero draws
instead of performing floor(temp) + 1 steps. -/
theorem anneal_step_count_counterexample :
    (Feasible (RosenbrockND.new 1 100 [] [] zeroRng) [] ∧
      ((RosenbrockND.new 1 100 [] [] zeroRng).anneal [] 0).1 = .crash ∧
      ((RosenbrockND.new 1 100 [] [] zeroRng).anneal [] 0).2.rng.count = 0 ∧
      (annealSpecLoop [] [] 0 1 [] zeroRng).2.count = 1 ∧
      (RosenbrockND.new 1 100 [] [] zeroRng).anneal [] 0 ≠
        (.ok (annealSpecLoop [] [] 0 1 [] zeroRng).1,
          { RosenbrockND.new 1 100 [] [] zeroRng with
              rng := (annealSpecLoop [] [] 0 1 [] zeroRng).2 })) ∧
    (Feasible (RosenbrockND.new 1 100 [-5, -5] [5, 5] zeroRng) [0, 0] ∧
      (0 : ℚ) ≤ 18446744073709551616 ∧
      loopBound 18446744073709551616 = none ∧
      ((RosenbrockND.new 1 100 [-5, -5] [5, 5] zeroRng).anneal
        [0, 0] 18446744073709551616).1 = .crash ∧
      ((RosenbrockND.new 1 100 [-5, -5] [5, 5] zeroRng).anneal
        [0, 0] 18446744073709551616).2.rng.count = 0) := by
  refine ⟨⟨by decide, rfl, rfl, by decide, ?_⟩, by decide, by norm_num, by decide, by decide,
    by decide⟩
  intro h
  have h1 := congrArg Prod.fst h
  exact RustOutcome.noConfusion h1

/-- C2 (amended: nonempty parameter, loop bound within u64): on every
nonempty feasible parameter and every temperature at least 0 whose computed
loop bound does not overflow u64, the perturbation call performs exactly
floor(temp) + 1 sequential add-then-clamp steps at generator-drawn indices,
as described by the specification-side loop; in particular the step count at
temperature 0 is 1 and at temperature 9.5 is 10. -/
theorem anneal_step_count (o : RosenbrockND) (param : List ℚ) (temp : ℚ)
    (htemp : 0 ≤ temp) (hne : param ≠ []) (hbound : Int.toNat ⌊temp⌋ < u64Max)
    (hf : Feasible o param) :
    loopBound temp = some (Int.toNat ⌊temp⌋ + 1) ∧
    o.anneal param temp =
      (.ok (annealSpecLoop o.lower_bound o.upper_bound param.length
          (Int.toNat ⌊temp⌋ + 1) param o.rng).1,
        { o with rng := (annealSpecLoop o.lower_bound o.upper_bound param.length
          (Int.toNat ⌊temp⌋ + 1) param o.rng).2 }) ∧
    ((Int.toNat ⌊temp⌋ + 1 : ℤ) = ⌊temp⌋ + 1) ∧
    loopBound 0 = some 1 ∧ loopBound (19 / 2) = some 10 := by
  have hn : 0 < param.length := List.length_pos.mpr hne
  have hmain := annealLoop_eq_spec o param.length hn (Int.toNat ⌊temp⌋ + 1) param o.rng rfl hf
  refine ⟨loopBound_of_lt temp hbound, ?_, ?_, by decide, ?_⟩
  · rw [RosenbrockND.anneal, if_neg (by omega), loopBound_of_lt temp hbound]
    simp only [hmain.1]
  · have h9 : (0 : ℤ) ≤ ⌊temp⌋ := Int.floor_nonneg.mpr htemp
    omega
  · unfold loopBound floorAsU64
    rw [show ⌊(19 / 2 : ℚ)⌋ = 9 by norm_num]
    decide

/-- C2 witness: the amended step-count theorem applied to a concrete
feasible configuration at temperature 0. -/
theorem anneal_step_count_witness :
    (0 : ℚ) ≤ 0 ∧ ([0, 0] : List ℚ) ≠ [] ∧
    Int.toNat ⌊(0 : ℚ)⌋ < u64Max ∧
    Feasible (RosenbrockND.new 1 100 [-5, -5] [5, 5] zeroRng) [0, 0] ∧
    (loopBound 0 = some (Int.toNat ⌊(0 : ℚ)⌋ + 1) ∧
      (RosenbrockND.new 1 100 [-5, -5] [5, 5] zeroRng).anneal [0, 0] 0 =
        (.ok (annealSpecLoop [-5, -5] [5, 5] ([0, 0] : List ℚ).length
            (Int.toNat ⌊(0 : ℚ)⌋ + 1) [0, 0] zeroRng).1,
          { RosenbrockND.new 1 100 [-5, -5] [5, 5] zeroRng with
              rng := (annealSpecLoop [-5, -5] [5, 5] ([0, 0] : List ℚ).length
                (Int.toNat ⌊(0 : ℚ)⌋ + 1) [0, 0] zeroRng).2 }) ∧
      ((Int.toNat ⌊(0 : ℚ)⌋ + 1 : ℤ) = ⌊(0 : ℚ)⌋ + 1) ∧
      loopBound 0 = some 1 ∧ loopBound (19 / 2) = some 10) :=
  ⟨le_refl 0, by decide, by decide, by decide,
    anneal_step_count (RosenbrockND.new 1 100 [-5, -5] [5, 5] zeroRng) [0, 0] 0
      (le_refl 0) (by decide) (by decide) (by decide)⟩

/-- C3 counterexample: two feasible inputs inside the claim's scope where no
bounded parameter is returned.  The empty parameter is feasible for empty
bounds, yet the call crashes before any draw; and at temperature 2^64 on a
nonempty feasible parameter the u64 loop-bound addition overflows, so the
call crashes and returns no parameter at all. -/
theorem anneal_within_bounds_counterexample :
    (Feasible (RosenbrockND.new 2 50 [] [] zeroRng) [] ∧
      ¬ ∃ out, ((RosenbrockND.new 2 50 [] [] zeroRng).anneal [] 0).1 = .ok out) ∧
    (Feasible (RosenbrockND.new 2 50 [-1, -1] [1, 1] zeroRng) [0, 0] ∧
      (0 : ℚ) ≤ 18446744073709551616 ∧
      ¬ ∃ out, ((RosenbrockND.new 2 50 [-1, -1] [1, 1] zeroRng).anneal
        [0, 0] 18446744073709551616).1 = .ok out) := by
  refine ⟨⟨by decide, ?_⟩, by decide, by norm_num, ?_⟩
  · rintro ⟨out, h⟩
    exact RustOutcome.noConfusion h
  · rintro ⟨out, h⟩
    rw [show ((RosenbrockND.new 2 50 [-1, -1] [1, 1] zeroRng).anneal
      [0, 0] 18446744073709551616).1 = .crash by decide] at h
    exact RustOutcome.noConfusion h

/-- C3 (amended: nonempty parameter, loop bound within u64): on every
nonempty feasible parameter and every temperature at least 0 whose computed
loop bound does not overflow u64, the perturbation call succeeds and returns
a parameter of the same length with every component within its bounds. -/
theorem anneal_within_bounds (o : RosenbrockND) (param : List ℚ) (temp : ℚ)
    (htemp : 0 ≤ temp) (hne : param ≠ []) (hbound : Int.toNat ⌊temp⌋ < u64Max)
    (hf : Feasible o param) :
    ∃ out, (o.anneal param temp).1 = .ok out ∧ out.length = param.length ∧ Feasible o out := by
  have hn : 0 < param.length := List.length_pos.mpr hne
  have hmain := annealLoop_eq_spec o param.length hn (Int.toNat ⌊temp⌋ + 1) param o.rng rfl hf
  refine ⟨(annealSpecLoop o.lower_bound o.upper_bound param.length
      (Int.toNat ⌊temp⌋ + 1) param o.rng).1, ?_, hmain.2.1, hmain.2.2.1⟩
  rw [RosenbrockND.anneal, if_neg (by omega), loopBound_of_lt temp hbound]
  simp only [hmain.1]

/-- C3 witness: the bounds-preservation theorem applied to a concrete
feasible configuration at temperature 0. -/
theorem anneal_within_bounds_witness :
    (0 : ℚ) ≤ 0 ∧ ([1, -2] : List ℚ) ≠ [] ∧
    Int.toNat ⌊(0 : ℚ)⌋ < u64Max ∧
    Feasible (RosenbrockND.new 1 100 [-5, -5] [5, 5] oneRng) [1, -2] ∧
    ∃ out, ((RosenbrockND.new 1 100 [-5, -5] [5, 5] oneRng).anneal [1, -2] 0).1 = .ok out ∧
      out.length = ([1, -2] : List ℚ).length ∧
      Feasible (RosenbrockND.new 1 100 [-5, -5] [5, 5] oneRng) out :=
  ⟨le_refl 0, by decide, by decide, by decide,
    anneal_within_bounds (RosenbrockND.new 1 100 [-5, -5] [5, 5] oneRng) [1, -2] 0
      (le_refl 0) (by decide) (by decide) (by decide)⟩

/-- C9 counterexample: constructing the objective with a lower-bound array
shorter than the parameter is not rejected at construction, and the mismatch
surfaces as a runtime crash inside the perturbation call. -/
theorem bounds_mismatch_counterexample :
    (RosenbrockND.new 1 100 [-5] [5, 5] oneRng).lower_bound.length = 1 ∧
    ([0, 0] : List ℚ).length = 2 ∧
    ((RosenbrockND.new 1 100 [-5] [5, 5] oneRng).anneal [0, 0] 0).1 = .crash := by
  decide

/-- C9 (amended): the constructor stores its arguments unconditionally —
no bounds-length validation happens at construction — and a bounds-length
mismatch can manifest as a runtime crash during a perturbation call. -/
theorem construction_no_validation :
    (∀ (a b : ℚ) (lo up : List ℚ) (r : Rng), RosenbrockND.new a b lo up r = ⟨a, b, lo, up, r⟩) ∧
    (∃ (a b : ℚ) (lo up : List ℚ) (r : Rng) (p : List ℚ) (temp : ℚ),
      lo.length ≠ p.length ∧ p ≠ [] ∧
      ((RosenbrockND.new a b lo up r).anneal p temp).1 = .crash) :=
  ⟨fun _ _ _ _ _ => rfl,
    ⟨1, 100, [-5], [5, 5], oneRng, [0, 0], 0, by decide, by decide, by decide⟩⟩

/-- C10: the perturbation call leaves the objective's shape parameters and
bounds unchanged and keeps the generator's underlying stream; on every
successful call the only mutation is the generator position, which advances
by exactly the computed loop bound (the number of performed steps). -/
theorem anneal_frame (o : RosenbrockND) (param : List ℚ) (temp : ℚ) :
    (o.anneal param temp).2.a = o.a ∧
    (o.anneal param temp).2.b = o.b ∧
    (o.anneal param temp).2.lower_bound = o.lower_bound ∧
    (o.anneal param temp).2.upper_bound = o.upper_bound ∧
    (o.anneal param temp).2.rng.stream = o.rng.stream ∧
    (∀ out, (o.anneal param temp).1 = .ok out →
      ∃ k, loopBound temp = some k ∧
        (o.anneal param temp).2.rng.count = o.rng.count + k) := by
  by_cases hz : param.length = 0
  · rw [RosenbrockND.anneal, if_pos hz]
    exact ⟨rfl, rfl, rfl, rfl, rfl, fun out h => RustOutcome.noConfusion h⟩
  · rw [RosenbrockND.anneal, if_neg hz]
    split
    · exact ⟨rfl, rfl, rfl, rfl, rfl, fun out h => RustOutcome.noConfusion h⟩
    · rename_i steps hlb
      have hs := annealLoop_stream o param.length steps param o.rng
      split
      · rename_i out0 r1 hloop
        rw [hloop] at hs
        refine ⟨rfl, rfl, rfl, rfl, hs, fun out h => ⟨steps, hlb, ?_⟩⟩
        have hc := annealLoop_count_of_some o param.length steps param o.rng out0
          (by rw [hloop])
        rw [hloop] at hc
        exact hc
      · rename_i r1 hloop
        rw [hloop] at hs
        exact ⟨rfl, rfl, rfl, rfl, hs, fun out h => RustOutcome.noConfusion h⟩

/-- C10 witness: the frame theorem's generator-advance conclusion at a
concrete successful call. -/
theorem anneal_frame_witness :
    ∃ k, loopBound 0 = some k ∧
      ((RosenbrockND.new 1 100 [-5, -5] [5, 5] zeroRng).anneal [0, 0] 0).2.rng.count =
        (RosenbrockND.new 1 100 [-5, -5] [5, 5] zeroRng).rng.count + k :=
  (anneal_frame (RosenbrockND.new 1 100 [-5, -5] [5, 5] zeroRng) [0, 0] 0).2.2.2.2.2 [0, 0]
    (by norm_num [RosenbrockND.anneal, RosenbrockND.new, annealLoop, annealStep, clampRust,
      sampleVal, loopBound, floorAsU64, u64Max, Rng.next, zeroRng])

end ArgminExploring
